import Mathlib

/-!
Shallow embedding of the incremental build-watch orchestrator in
`packages/angular/build/src/builders/application/build-action.ts`.

The orchestrator `runEsBuildBuildAction` is an async generator.  We model one
invocation as a pure interpreter over a caller-supplied script: the outcome of
the initial build (`BuildStep`) and, for watch mode, the sequence of loop
iterations the watcher delivers (`Iteration`: abort-signal state, change
batch, the backend's rebuild outcome, and whether materialization throws).
The interpreter produces a chronological event trace (`RunTrace.events`),
per-rebuild state snapshots (`RunTrace.snapshots` record `currentWatchFiles`
and the Watcher's subscribed set right after watch-set reconciliation), and
whether an exception propagated (`RunTrace.threw`).

JavaScript `Set` objects (`currentWatchFiles`, the Watcher's subscription set,
`staleWatchFiles`) are modelled as insertion-ordered duplicate-free
`List String` values with `sinsert` / deletion-by-filter, matching JS `Set`
add/delete semantics exactly.
-/

namespace AngularBuild

/-- Kind of an output file (`BuildOutputFileType` in the bundler context). -/
inductive OutputKind where
  | browser
  | server
  | root
  deriving DecidableEq

/-- An output file produced by a build: relative path, byte contents, kind. -/
structure OutputFile where
  path : String
  contents : List Nat
  kind : OutputKind
  deriving DecidableEq

/-- An asset file copied alongside the build output. -/
structure AssetFile where
  source : String
  destination : String
  deriving DecidableEq

/-- The relevant observable fields of an `ExecutionResult` produced by one
build invocation.  `id` tags the result so disposal can be tracked;
`errors` is the list of error-severity diagnostics (`result.errors`). -/
structure ExecutionResult where
  id : Nat
  errors : List String
  outputFiles : List OutputFile
  assetFiles : List AssetFile
  watchFiles : List String
  deriving DecidableEq

/-- The value handed to the caller for one build: either the plain
summary view or the in-memory view that carries file contents. -/
inductive BuildActionOutput where
  | plain (success : Bool)
  | withFiles (success : Bool) (files : List (String × List Nat))
  deriving DecidableEq

/-- Modelled from the spec: `ExecutionResult.output` is a getter of
`bundler-execution-result.ts`, which is not among the sources.  Per the spec it
is the result's plain diagnostic/summary view, carrying no file contents;
success is derived from the absence of error-severity diagnostics. -/
def ExecutionResult.output (r : ExecutionResult) : BuildActionOutput :=
  BuildActionOutput.plain r.errors.isEmpty

/-- Modelled from the spec: `ExecutionResult.outputWithFiles` is a getter of
`bundler-execution-result.ts`, which is not among the sources.  Per the spec it
is the in-memory view that includes actual file contents keyed by path. -/
def ExecutionResult.outputWithFiles (r : ExecutionResult) : BuildActionOutput :=
  BuildActionOutput.withFiles r.errors.isEmpty
    (r.outputFiles.map (fun f => (f.path, f.contents)))

/-- Add an element to a JS-`Set`-modelling list: a no-op when already present,
otherwise appended at the end (JS `Set` preserves insertion order).  This is
also the Watcher's `add` of a single path, which the spec requires to be
idempotent. -/
def sinsert (s : List String) (x : String) : List String :=
  if x ∈ s then s else s ++ [x]

/-- JS `new Set(iterable)`: insertion-ordered deduplication. -/
def mkSet (l : List String) : List String :=
  l.foldl sinsert []

/-- JS `Set.delete` applied for each element of `ps` (used for
`changes.removed.forEach((removedPath) => currentWatchFiles.delete(removedPath))`). -/
def removeAll (s : List String) (ps : List String) : List String :=
  ps.foldl (fun acc p => acc.filter (fun x => !(x == p))) s

/-- Observable events of one orchestrator invocation, in chronological order. -/
inductive Event where
  | deleteOutput
  | sassShutdown
  | watcherCreated
  | watcherAdd (paths : List String)
  | watcherRemove (paths : List String)
  | yieldOutput (o : BuildActionOutput)
  | dispose (id : Nat)
  | watcherClose
  deriving DecidableEq

/-- Modelled from the spec: `ExecutionResult.dispose` and the rule that fires
it on normal progression live in `bundler-execution-result.ts` and the backend
`action`, which are not among the sources.  Per the spec, when a new build
completes, the previous Execution Result's `dispose()` is invoked exactly
then; this definition records that disposal event. -/
def progressionDisposeEvents (previous : ExecutionResult) : List Event :=
  [Event.dispose previous.id]

/-- Configuration of one orchestrator invocation (the recognized options of
`runEsBuildBuildAction`).  `shouldWatchRoot` models the
`NG_BUILD_WATCH_ROOT` environment flag; `filesOnDisk` models `existsSync`
(the set of absolute paths present on disk). -/
structure Config where
  workspaceRoot : String
  projectRoot : String
  writeToFileSystem : Bool
  writeToFileSystemFilter : Option (OutputFile → Bool)
  watch : Bool
  deleteOutputPath : Bool
  shouldWatchRoot : Bool
  filesOnDisk : List String

/-- The fixed manifest/lockfile names watched for package manager changes
(`packageWatchFiles` in `build-action.ts`). -/
def packageWatchFiles : List String :=
  ["package.json", "package-lock.json", "pnpm-lock.yaml", "yarn.lock", ".pnp.cjs",
    ".pnp.data.json"]

/-- `path.join(workspaceRoot, file)`, simplified to separator concatenation
(path normalization is irrelevant for the claims considered here). -/
def pathJoin (a b : String) : String :=
  a ++ "/" ++ b

/-- The manifest/lockfile paths actually added to the watcher:
`packageWatchFiles.map((file) => path.join(workspaceRoot, file)).filter((file) => existsSync(file))`. -/
def pkgWatchPaths (cfg : Config) : List String :=
  (packageWatchFiles.map (fun file => pathJoin cfg.workspaceRoot file)).filter
    (fun file => decide (file ∈ cfg.filesOnDisk))

/-- Watcher-setup events, in source order: create the watcher, add the project
root when `NG_BUILD_WATCH_ROOT` is set, add the present manifest/lockfile
paths, add the initial result's watch files. -/
def setupEvents (cfg : Config) (result : ExecutionResult) : List Event :=
  [Event.watcherCreated]
    ++ (if cfg.shouldWatchRoot then [Event.watcherAdd [cfg.projectRoot]] else [])
    ++ [Event.watcherAdd (pkgWatchPaths cfg), Event.watcherAdd result.watchFiles]

/-- The Watcher's subscribed set right after setup. -/
def setupSub (cfg : Config) (result : ExecutionResult) : List String :=
  ((if cfg.shouldWatchRoot then [cfg.projectRoot] else [])
      ++ pkgWatchPaths cfg ++ result.watchFiles).foldl sinsert []

/-- Result of `writeAndEmitOutput`: which files were persisted (`none` when no
filesystem write occurred) and the value returned to the generator's caller. -/
structure EmitOutcome where
  written : Option (List OutputFile × List AssetFile)
  returned : BuildActionOutput

/-- Embedding of `writeAndEmitOutput` (`build-action.ts`, lines 227-247). -/
def writeAndEmitOutput (writeToFileSystem : Bool) (result : ExecutionResult)
    (writeToFileSystemFilter : Option (OutputFile → Bool)) : EmitOutcome :=
  if writeToFileSystem then
    let outputFilesToWrite :=
      match writeToFileSystemFilter with
      | some filt => result.outputFiles.filter filt
      | none => result.outputFiles
    ⟨some (outputFilesToWrite, result.assetFiles), result.output⟩
  else
    ⟨none, result.outputWithFiles⟩

/-- The value yielded for one result under the invocation's configuration. -/
def emitted (cfg : Config) (result : ExecutionResult) : BuildActionOutput :=
  (writeAndEmitOutput cfg.writeToFileSystem result cfg.writeToFileSystemFilter).returned

/-- A change-event batch delivered by the watcher. -/
structure ChangeBatch where
  added : List String
  removed : List String
  modified : List String
  deriving DecidableEq

/-- Outcome of one backend `action` invocation: a fresh result, or a thrown
exception. -/
inductive BuildStep where
  | ok (result : ExecutionResult)
  | throws
  deriving DecidableEq

/-- Script for one iteration of the rebuild loop: the abort-signal state
observed at the top of the iteration, the change batch, the rebuild outcome,
and whether materialization (`writeAndEmitOutput`) throws for this result. -/
structure Iteration where
  aborted : Bool
  changes : ChangeBatch
  build : BuildStep
  emitThrows : Bool
  deriving DecidableEq

/-- State snapshot recorded right after one rebuild's watch-set
reconciliation. -/
structure Snapshot where
  result : ExecutionResult
  current : List String
  sub : List String
  deriving DecidableEq

/-- Intermediate state of the reconciliation loop over `result.watchFiles`
(`build-action.ts`, lines 196-206): `currentWatchFiles`, the Watcher's
subscribed set, the optional `staleWatchFiles` set, and the paths passed to
`watcher.add` so far, in order. -/
structure ReconcileState where
  current : List String
  sub : List String
  stale : Option (List String)
  added : List String

/-- One step of the `for (const watchFile of result.watchFiles)` loop:
if the path is not in `currentWatchFiles`, add it to the watcher and the
bookkeeping set; in all cases delete it from the stale set. -/
def reconcileStep (st : ReconcileState) (watchFile : String) : ReconcileState :=
  let st :=
    if watchFile ∈ st.current then st
    else
      { st with
        current := st.current ++ [watchFile]
        sub := sinsert st.sub watchFile
        added := st.added ++ [watchFile] }
  { st with stale := st.stale.map (fun s => s.filter (fun x => !(x == watchFile))) }

/-- Outcome of watch-set reconciliation: the new `currentWatchFiles`, the
Watcher's new subscribed set, the paths passed to `watcher.add` (in order),
and the paths passed to `watcher.remove` (`[]` when no removal happened). -/
structure ReconcileOut where
  current : List String
  sub : List String
  added : List String
  removed : List String
  deriving DecidableEq

/-- Initial reconciliation state:
`const staleWatchFiles = result.errors.length > 0 ? undefined : new Set(currentWatchFiles)`. -/
def reconcileInit (currentWatchFiles watcherSub : List String) (result : ExecutionResult) :
    ReconcileState :=
  ⟨currentWatchFiles, watcherSub,
    if result.errors.length > 0 then none else some currentWatchFiles, []⟩

/-- The reconciliation loop over `result.watchFiles`. -/
def reconcileFold (currentWatchFiles watcherSub : List String) (result : ExecutionResult) :
    ReconcileState :=
  result.watchFiles.foldl reconcileStep (reconcileInit currentWatchFiles watcherSub result)

/-- Embedding of the watch-set reconciliation block (`build-action.ts`,
lines 193-210): `staleWatchFiles` is `undefined` when the result has errors,
otherwise a copy of `currentWatchFiles`; new watch files are added; stale
locations are removed from the Watcher (but not from `currentWatchFiles`)
only when the build was successful and some remained. -/
def reconcile (currentWatchFiles watcherSub : List String) (result : ExecutionResult) :
    ReconcileOut :=
  let st := reconcileFold currentWatchFiles watcherSub result
  match st.stale with
  | some stale =>
    if stale.length > 0 then
      ⟨st.current, st.sub.filter (fun x => !(stale.contains x)), st.added, stale⟩
    else
      ⟨st.current, st.sub, st.added, []⟩
  | none => ⟨st.current, st.sub, st.added, []⟩

/-- Result of running the rebuild loop body over the scripted iterations. -/
structure LoopOut where
  events : List Event
  snapshots : List Snapshot
  lastResult : ExecutionResult
  threw : Bool
  deriving DecidableEq

/-- Embedding of the `for await (const changes of watcher)` loop
(`build-action.ts`, lines 169-218).  The iteration script ending models the
watcher closing; an `aborted` flag models `options.signal?.aborted` breaking
out; a `throws` rebuild or a throwing materialization exits the loop with a
propagating exception.  `lastResult` is the value of the `result` variable
when the loop exits. -/
def watchLoop (cfg : Config) :
    ExecutionResult → List String → List String → List Iteration → LoopOut
  | result, _, _, [] => ⟨[], [], result, false⟩
  | result, current, sub, it :: rest =>
    if it.aborted then ⟨[], [], result, false⟩
    else
      let current2 := removeAll current it.changes.removed
      match it.build with
      | BuildStep.throws => ⟨[], [], result, true⟩
      | BuildStep.ok newResult =>
        let rOut := reconcile current2 sub newResult
        let snap : Snapshot := ⟨newResult, rOut.current, rOut.sub⟩
        let evs := progressionDisposeEvents result
          ++ rOut.added.map (fun p => Event.watcherAdd [p])
          ++ (if rOut.removed.isEmpty then [] else [Event.watcherRemove rOut.removed])
        if it.emitThrows then
          ⟨evs, [snap], newResult, true⟩
        else
          let tail := watchLoop cfg newResult rOut.current rOut.sub rest
          ⟨evs ++ [Event.yieldOutput (emitted cfg newResult)] ++ tail.events,
            snap :: tail.snapshots, tail.lastResult, tail.threw⟩

/-- Trace of one whole orchestrator invocation. -/
structure RunTrace where
  events : List Event
  snapshots : List Snapshot
  threw : Bool
  deriving DecidableEq

/-- Embedding of `runEsBuildBuildAction` (`build-action.ts`, lines 43-225):
optional output deletion; initial build with Sass-worker shutdown in its
`finally` when watch is off; conditional watcher setup; first yield; the
rebuild loop; and the loop's `finally` teardown
(`Promise.allSettled([watcher.close(), result.dispose()])` followed by
`shutdownSassWorkerPool()`). -/
def runEsBuildBuildAction (cfg : Config) (initial : BuildStep) (iters : List Iteration) :
    RunTrace :=
  let pre : List Event :=
    if cfg.deleteOutputPath && cfg.writeToFileSystem then [Event.deleteOutput] else []
  match initial with
  | BuildStep.throws =>
    ⟨pre ++ (if cfg.watch then [] else [Event.sassShutdown]), [], true⟩
  | BuildStep.ok result =>
    if cfg.watch then
      let lo := watchLoop cfg result (mkSet result.watchFiles) (setupSub cfg result) iters
      ⟨pre ++ setupEvents cfg result ++ [Event.yieldOutput (emitted cfg result)]
          ++ lo.events
          ++ [Event.watcherClose, Event.dispose lo.lastResult.id, Event.sassShutdown],
        lo.snapshots, lo.threw⟩
    else
      ⟨pre ++ [Event.sassShutdown, Event.yieldOutput (emitted cfg result)], [], false⟩

/-- Whether an event is a yield of a caller output. -/
def isYield : Event → Bool
  | Event.yieldOutput _ => true
  | _ => false

/-- Number of caller outputs yielded in a trace. -/
def yieldCount (evs : List Event) : Nat :=
  evs.countP (fun e => isYield e)

/-- The id carried by a dispose event. -/
def disposedId : Event → Option Nat
  | Event.dispose i => some i
  | _ => none

/-- The ids of results disposed in a trace, in order. -/
def disposedIds (evs : List Event) : List Nat :=
  evs.filterMap disposedId

/-- Replay of a single event against the Watcher's subscribed set. -/
def applyEvent (s : List String) : Event → List String
  | Event.watcherAdd ps => ps.foldl sinsert s
  | Event.watcherRemove ps => s.filter (fun x => !(ps.contains x))
  | _ => s

/-- The Watcher's subscribed set after replaying a list of events from an
empty subscription. -/
def subAfterEvents (evs : List Event) : List String :=
  evs.foldl applyEvent []

/-- Configuration used in the concrete scenario refuting claim C1: watch mode,
in-memory output, `package.json` present on disk. -/
def c1Config : Config :=
  ⟨"/w", "/w/p", false, none, true, false, false, ["/w/package.json"]⟩

/-- Initial result for the C1 scenario: the backend also reports the manifest
path among its watch files. -/
def c1Initial : ExecutionResult :=
  ⟨0, [], [], [], ["/w/package.json", "b"]⟩

/-- Rebuild result for the C1 scenario: no errors, watch files shrink to
`["a"]`. -/
def c1Rebuild : ExecutionResult :=
  ⟨1, [], [], [], ["a"]⟩

/-- Configuration used in the concrete scenarios for claims C3 and C10. -/
def cWatchConfig : Config :=
  ⟨"/w", "/w/p", false, none, true, false, false, []⟩

/-- Non-watch configuration used in the concrete scenario refuting claim C3. -/
def c3Config : Config :=
  ⟨"/w", "/w/p", false, none, false, false, false, []⟩

/-- A change-free iteration delivering the given rebuild result. -/
def quietIteration (r : ExecutionResult) : Iteration :=
  ⟨false, ⟨[], [], []⟩, BuildStep.ok r, false⟩

theorem mem_sinsert (s : List String) (x y : String) :
    y ∈ sinsert s x ↔ y ∈ s ∨ y = x := by
  unfold sinsert
  by_cases h : x ∈ s
  · simp only [if_pos h]
    constructor
    · exact Or.inl
    · rintro (hy | rfl)
      · exact hy
      · exact h
  · simp [if_neg h]

theorem mem_foldl_sinsert (l : List String) :
    ∀ (s : List String) (y : String), y ∈ l.foldl sinsert s ↔ y ∈ s ∨ y ∈ l := by
  induction l with
  | nil => intro s y; simp
  | cons a t ih =>
    intro s y
    simp only [List.foldl_cons, ih, mem_sinsert, List.mem_cons]
    tauto

theorem reconcileStep_current (st : ReconcileState) (a : String) :
    (reconcileStep st a).current
      = if a ∈ st.current then st.current else st.current ++ [a] := by
  unfold reconcileStep
  by_cases h : a ∈ st.current <;> simp [h]

theorem reconcileStep_sub (st : ReconcileState) (a : String) :
    (reconcileStep st a).sub = if a ∈ st.current then st.sub else sinsert st.sub a := by
  unfold reconcileStep
  by_cases h : a ∈ st.current <;> simp [h]

theorem reconcileStep_added (st : ReconcileState) (a : String) :
    (reconcileStep st a).added
      = if a ∈ st.current then st.added else st.added ++ [a] := by
  unfold reconcileStep
  by_cases h : a ∈ st.current <;> simp [h]

theorem reconcileStep_stale (st : ReconcileState) (a : String) :
    (reconcileStep st a).stale = st.stale.map (fun s => s.filter (fun x => !(x == a))) := by
  unfold reconcileStep
  by_cases h : a ∈ st.current <;> simp [h]

theorem fold_reconcileStep_current (l : List String) :
    ∀ (st : ReconcileState) (y : String),
      y ∈ (l.foldl reconcileStep st).current ↔ y ∈ st.current ∨ y ∈ l := by
  induction l with
  | nil => intro st y; simp
  | cons a t ih =>
    intro st y
    rw [List.foldl_cons, ih, reconcileStep_current]
    by_cases h : a ∈ st.current
    · simp only [if_pos h, List.mem_cons]
      constructor
      · rintro (hy | hy)
        · exact Or.inl hy
        · exact Or.inr (Or.inr hy)
      · rintro (hy | rfl | hy)
        · exact Or.inl hy
        · exact Or.inl h
        · exact Or.inr hy
    · simp only [if_neg h, List.mem_append, List.mem_singleton, List.mem_cons]
      tauto

theorem fold_reconcileStep_sub (l : List String) :
    ∀ (st : ReconcileState) (y : String),
      y ∈ (l.foldl reconcileStep st).sub
        ↔ y ∈ st.sub ∨ (y ∈ l ∧ y ∉ st.current) := by
  induction l with
  | nil => intro st y; simp
  | cons a t ih =>
    intro st y
    rw [List.foldl_cons, ih, reconcileStep_sub, reconcileStep_current]
    by_cases h : a ∈ st.current
    · simp only [if_pos h, List.mem_cons]
      by_cases hya : y = a
      · subst hya; tauto
      · tauto
    · simp only [if_neg h, mem_sinsert, List.mem_cons, List.mem_append,
        List.mem_singleton]
      by_cases hya : y = a
      · subst hya; tauto
      · tauto

theorem fold_reconcileStep_stale_none (l : List String) :
    ∀ st : ReconcileState, st.stale = none → (l.foldl reconcileStep st).stale = none := by
  induction l with
  | nil => intro st h; simpa using h
  | cons a t ih =>
    intro st h
    rw [List.foldl_cons]
    exact ih _ (by rw [reconcileStep_stale, h]; rfl)

theorem fold_reconcileStep_stale_some (l : List String) :
    ∀ (st : ReconcileState) (s₀ : List String), st.stale = some s₀ →
      ∃ s₁, (l.foldl reconcileStep st).stale = some s₁ ∧
        ∀ y, y ∈ s₁ ↔ y ∈ s₀ ∧ y ∉ l := by
  induction l with
  | nil =>
    intro st s₀ h
    exact ⟨s₀, by simpa using h, by simp⟩
  | cons a t ih =>
    intro st s₀ h
    have hst : (reconcileStep st a).stale = some (s₀.filter (fun x => !(x == a))) := by
      rw [reconcileStep_stale, h]; rfl
    obtain ⟨s₁, hs₁, hmem⟩ := ih _ _ hst
    refine ⟨s₁, by rw [List.foldl_cons]; exact hs₁, ?_⟩
    intro y
    rw [hmem y]
    simp only [List.mem_filter, List.mem_cons, Bool.not_eq_eq_eq_not, Bool.not_true,
      beq_eq_false_iff_ne, ne_eq]
    tauto

theorem fold_reconcileStep_added (l : List String) :
    ∀ st : ReconcileState,
      st.added.Nodup → (∀ p ∈ st.added, p ∈ st.current) →
      ((l.foldl reconcileStep st).added.Nodup ∧
        ∀ p ∈ (l.foldl reconcileStep st).added,
          (p ∈ st.added ∨ p ∉ st.current) ∧ (p ∈ st.added ∨ p ∈ l)) := by
  induction l with
  | nil =>
    intro st hnd hsub
    refine ⟨by simpa using hnd, ?_⟩
    intro p hp
    simp only [List.foldl_nil] at hp
    exact ⟨Or.inl hp, Or.inl hp⟩
  | cons a t ih =>
    intro st hnd hsub
    rw [List.foldl_cons]
    by_cases h : a ∈ st.current
    · have hadded : (reconcileStep st a).added = st.added := by
        rw [reconcileStep_added, if_pos h]
      have hcur : (reconcileStep st a).current = st.current := by
        rw [reconcileStep_current, if_pos h]
      obtain ⟨hnd', hmem'⟩ := ih (reconcileStep st a)
        (by rw [hadded]; exact hnd) (by rw [hadded, hcur]; exact hsub)
      refine ⟨hnd', ?_⟩
      intro p hp
      obtain ⟨h1, h2⟩ := hmem' p hp
      rw [hadded, hcur] at h1
      rw [hadded] at h2
      exact ⟨h1, by rcases h2 with h2 | h2; exacts [Or.inl h2, Or.inr (List.mem_cons_of_mem a h2)]⟩
    · have hadded : (reconcileStep st a).added = st.added ++ [a] := by
        rw [reconcileStep_added, if_neg h]
      have hcur : (reconcileStep st a).current = st.current ++ [a] := by
        rw [reconcileStep_current, if_neg h]
      have hnd2 : (st.added ++ [a]).Nodup := by
        rw [List.nodup_append]
        refine ⟨hnd, List.nodup_singleton a, ?_⟩
        intro p hp hpa
        rw [List.mem_singleton] at hpa
        subst hpa
        exact h (hsub p hp)
      have hsub2 : ∀ p ∈ st.added ++ [a], p ∈ st.current ++ [a] := by
        intro p hp
        rw [List.mem_append] at hp ⊢
        rcases hp with hp | hp
        · exact Or.inl (hsub p hp)
        · exact Or.inr hp
      obtain ⟨hnd', hmem'⟩ := ih (reconcileStep st a)
        (by rw [hadded]; exact hnd2) (by rw [hadded, hcur]; exact hsub2)
      refine ⟨hnd', ?_⟩
      intro p hp
      obtain ⟨h1, h2⟩ := hmem' p hp
      rw [hadded] at h1 h2
      rw [hcur] at h1
      constructor
      · rcases h1 with h1 | h1
        · rw [List.mem_append, List.mem_singleton] at h1
          rcases h1 with h1 | rfl
          · exact Or.inl h1
          · exact Or.inr h
        · refine Or.inr ?_
          intro hpc
          exact h1 (by rw [List.mem_append]; exact Or.inl hpc)
      · rcases h2 with h2 | h2
        · rw [List.mem_append, List.mem_singleton] at h2
          rcases h2 with h2 | rfl
          · exact Or.inl h2
          · exact Or.inr (List.mem_cons_self p t)
        · exact Or.inr (List.mem_cons_of_mem a h2)

theorem reconcileInit_current (cur sub : List String) (r : ExecutionResult) :
    (reconcileInit cur sub r).current = cur :=
  rfl

theorem reconcileInit_sub (cur sub : List String) (r : ExecutionResult) :
    (reconcileInit cur sub r).sub = sub :=
  rfl

theorem reconcileInit_added (cur sub : List String) (r : ExecutionResult) :
    (reconcileInit cur sub r).added = [] :=
  rfl

theorem reconcile_error (cur sub : List String) (r : ExecutionResult)
    (h : 0 < r.errors.length) :
    reconcile cur sub r
      = ⟨(reconcileFold cur sub r).current, (reconcileFold cur sub r).sub,
          (reconcileFold cur sub r).added, []⟩ := by
  have hinit : (reconcileInit cur sub r).stale = none := by
    simp [reconcileInit, h]
  have hst : (reconcileFold cur sub r).stale = none :=
    fold_reconcileStep_stale_none r.watchFiles (reconcileInit cur sub r) hinit
  simp only [reconcile]
  rw [hst]

theorem reconcile_success (cur sub : List String) (r : ExecutionResult)
    (h : r.errors.length = 0) :
    ∃ s₁, (∀ y, y ∈ s₁ ↔ y ∈ cur ∧ y ∉ r.watchFiles) ∧
      reconcile cur sub r
        = if s₁.length > 0 then
            ⟨(reconcileFold cur sub r).current,
              (reconcileFold cur sub r).sub.filter (fun x => !(s₁.contains x)),
              (reconcileFold cur sub r).added, s₁⟩
          else
            ⟨(reconcileFold cur sub r).current, (reconcileFold cur sub r).sub,
              (reconcileFold cur sub r).added, []⟩ := by
  have hinit : (reconcileInit cur sub r).stale = some cur := by
    simp [reconcileInit, h]
  obtain ⟨s₁, hs₁, hmem⟩ :=
    fold_reconcileStep_stale_some r.watchFiles (reconcileInit cur sub r) cur hinit
  refine ⟨s₁, hmem, ?_⟩
  simp only [reconcile, reconcileFold]
  rw [hs₁]

/-- C2: when a rebuild's Execution Result contains an error-severity
diagnostic, reconciliation computes no removals (`toRemove = ∅`), so both
`currentWatchFiles` and the Watcher's subscribed set after reconciliation are
supersets of their values before it, while watch files of the new result not
already in the bookkeeping set are still added to the Watcher and to
`currentWatchFiles`. -/
theorem claim_C2_error_preserves_coverage (cur sub : List String) (r : ExecutionResult)
    (h : 0 < r.errors.length) :
    (reconcile cur sub r).removed = [] ∧
    (∀ y ∈ cur, y ∈ (reconcile cur sub r).current) ∧
    (∀ y ∈ sub, y ∈ (reconcile cur sub r).sub) ∧
    (∀ wf ∈ r.watchFiles, wf ∈ (reconcile cur sub r).current ∧
      (wf ∉ cur → wf ∈ (reconcile cur sub r).sub)) := by
  rw [reconcile_error cur sub r h]
  simp only [reconcileFold]
  refine ⟨by trivial, ?_, ?_, ?_⟩
  · intro y hy
    rw [fold_reconcileStep_current, reconcileInit_current]
    exact Or.inl hy
  · intro y hy
    rw [fold_reconcileStep_sub, reconcileInit_sub]
    exact Or.inl hy
  · intro wf hwf
    constructor
    · rw [fold_reconcileStep_current, reconcileInit_current]
      exact Or.inr hwf
    · intro hnc
      rw [fold_reconcileStep_sub, reconcileInit_sub, reconcileInit_current]
      exact Or.inr ⟨hwf, hnc⟩

/-- C2 witness: the error-preservation theorem applied to a concrete state. -/
theorem claim_C2_witness :
    (0 < (ExecutionResult.mk 1 ["oops"] [] [] ["n", "m"]).errors.length) ∧
    ((reconcile ["m", "x"] ["m", "x"] (ExecutionResult.mk 1 ["oops"] [] [] ["n", "m"])).removed
        = [] ∧
      (∀ y ∈ ["m", "x"],
        y ∈ (reconcile ["m", "x"] ["m", "x"]
          (ExecutionResult.mk 1 ["oops"] [] [] ["n", "m"])).current) ∧
      (∀ y ∈ ["m", "x"],
        y ∈ (reconcile ["m", "x"] ["m", "x"]
          (ExecutionResult.mk 1 ["oops"] [] [] ["n", "m"])).sub) ∧
      (∀ wf ∈ (ExecutionResult.mk 1 ["oops"] [] [] ["n", "m"]).watchFiles,
        wf ∈ (reconcile ["m", "x"] ["m", "x"]
            (ExecutionResult.mk 1 ["oops"] [] [] ["n", "m"])).current ∧
          (wf ∉ ["m", "x"] →
            wf ∈ (reconcile ["m", "x"] ["m", "x"]
              (ExecutionResult.mk 1 ["oops"] [] [] ["n", "m"])).sub))) :=
  ⟨by decide,
    claim_C2_error_preserves_coverage ["m", "x"] ["m", "x"]
      (ExecutionResult.mk 1 ["oops"] [] [] ["n", "m"]) (by decide)⟩

/-- C1 counterexample: in a watch session with `package.json` on disk, the
initial no-error build reports watch files `["/w/package.json", "b"]` and the
no-error rebuild reports `["a"]`.  After reconciliation, `currentWatchFiles`
is `["/w/package.json", "b", "a"]` — it still contains `"b"`, which is not in
the new result's watch files, so it does not equal that set; and the Watcher's
subscribed set is `["a"]`, which does not contain the present manifest path,
so it does not equal watch files united with the manifest/lockfile paths. -/
theorem claim_C1_counterexample :
    (runEsBuildBuildAction c1Config (BuildStep.ok c1Initial)
          [quietIteration c1Rebuild]).snapshots
        = [⟨c1Rebuild, ["/w/package.json", "b", "a"], ["a"]⟩] ∧
    c1Rebuild.errors = [] ∧
    ("b" ∈ (["/w/package.json", "b", "a"] : List String) ∧
      "b" ∉ c1Rebuild.watchFiles) ∧
    ("/w/package.json" ∈ pkgWatchPaths c1Config ∧
      "/w/package.json" ∉ (["a"] : List String)) := by
  decide

/-- C1 (amended): after a no-error rebuild's reconciliation,
`currentWatchFiles` equals its pre-reconciliation value united with the new
result's watch files (stale paths are not pruned from the bookkeeping set),
and the Watcher's subscribed set consists of the previously subscribed paths
together with newly reported paths not already in the bookkeeping set, minus
the stale paths (pre-reconciliation bookkeeping paths absent from the new
watch files) — which is exactly what `removed` contains. -/
theorem claim_C1_amended_reconcile (cur sub : List String) (r : ExecutionResult)
    (h : r.errors.length = 0) :
    ∀ y,
      (y ∈ (reconcile cur sub r).current ↔ (y ∈ cur ∨ y ∈ r.watchFiles)) ∧
      (y ∈ (reconcile cur sub r).sub ↔
        ((y ∈ sub ∨ (y ∈ r.watchFiles ∧ y ∉ cur)) ∧ ¬(y ∈ cur ∧ y ∉ r.watchFiles))) ∧
      (y ∈ (reconcile cur sub r).removed ↔ (y ∈ cur ∧ y ∉ r.watchFiles)) := by
  obtain ⟨s₁, hmem, heq⟩ := reconcile_success cur sub r h
  intro y
  rw [heq]
  by_cases hlen : s₁.length > 0
  · rw [if_pos hlen]
    refine ⟨?_, ?_, ?_⟩
    · simp only [reconcileFold, fold_reconcileStep_current, reconcileInit_current]
    · have hfilter :
          y ∈ (reconcileFold cur sub r).sub.filter (fun x => !(s₁.contains x))
            ↔ y ∈ (reconcileFold cur sub r).sub ∧ y ∉ s₁ := by
        simp [List.mem_filter, List.contains]
      rw [hfilter, hmem y]
      simp only [reconcileFold, fold_reconcileStep_sub, reconcileInit_sub,
        reconcileInit_current]
    · exact hmem y
  · rw [if_neg hlen]
    have hempty : s₁ = [] := List.length_eq_zero.mp (by omega)
    subst hempty
    have hfact : ¬(y ∈ cur ∧ y ∉ r.watchFiles) := fun hc =>
      absurd ((hmem y).mpr hc) (List.not_mem_nil y)
    refine ⟨?_, ?_, ?_⟩
    · simp only [reconcileFold, fold_reconcileStep_current, reconcileInit_current]
    · simp only [reconcileFold, fold_reconcileStep_sub, reconcileInit_sub,
        reconcileInit_current]
      tauto
    · exact hmem y

/-- C1 witness: the amended reconciliation theorem applied to a concrete
no-error rebuild. -/
theorem claim_C1_witness :
    ((ExecutionResult.mk 2 [] [] [] ["a"]).errors.length = 0) ∧
    (∀ y,
      (y ∈ (reconcile ["b"] ["b"] (ExecutionResult.mk 2 [] [] [] ["a"])).current ↔
        (y ∈ ["b"] ∨ y ∈ (ExecutionResult.mk 2 [] [] [] ["a"]).watchFiles)) ∧
      (y ∈ (reconcile ["b"] ["b"] (ExecutionResult.mk 2 [] [] [] ["a"])).sub ↔
        ((y ∈ ["b"] ∨ (y ∈ (ExecutionResult.mk 2 [] [] [] ["a"]).watchFiles ∧ y ∉ ["b"])) ∧
          ¬(y ∈ ["b"] ∧ y ∉ (ExecutionResult.mk 2 [] [] [] ["a"]).watchFiles))) ∧
      (y ∈ (reconcile ["b"] ["b"] (ExecutionResult.mk 2 [] [] [] ["a"])).removed ↔
        (y ∈ ["b"] ∧ y ∉ (ExecutionResult.mk 2 [] [] [] ["a"]).watchFiles))) :=
  ⟨by decide,
    claim_C1_amended_reconcile ["b"] ["b"] (ExecutionResult.mk 2 [] [] [] ["a"]) (by decide)⟩

/-- C10 counterexample: watch files `["a", "b"]`, a no-error rebuild reporting
`["a"]` (so `"b"` is removed from the Watcher but stays in
`currentWatchFiles`), then a no-error rebuild reporting `["a", "b"]` again.
After the second reconciliation `"b"` is in the new result's watch files but
is not subscribed in the Watcher, because the bookkeeping set still contained
it and the add was skipped. -/
theorem claim_C10_counterexample :
    (runEsBuildBuildAction cWatchConfig (BuildStep.ok (ExecutionResult.mk 0 [] [] [] ["a", "b"]))
          [quietIteration (ExecutionResult.mk 1 [] [] [] ["a"]),
            quietIteration (ExecutionResult.mk 2 [] [] [] ["a", "b"])]).snapshots
        = [⟨ExecutionResult.mk 1 [] [] [] ["a"], ["a", "b"], ["a"]⟩,
            ⟨ExecutionResult.mk 2 [] [] [] ["a", "b"], ["a", "b"], ["a"]⟩] ∧
    "b" ∈ (ExecutionResult.mk 2 [] [] [] ["a", "b"]).watchFiles ∧
    "b" ∉ (["a"] : List String) := by
  decide

/-- C10 (amended): after every reconciliation, every path of the new result's
watch files is a member of `currentWatchFiles`; a watch file is guaranteed
subscribed in the Watcher only when it was not already in the bookkeeping set
or was already subscribed; the paths passed to the Watcher's `add` are
pairwise distinct, none of them was already in `currentWatchFiles`, and all
come from the new result's watch files. -/
theorem claim_C10_amended_reconcile (cur sub : List String) (r : ExecutionResult) :
    (∀ wf ∈ r.watchFiles, wf ∈ (reconcile cur sub r).current) ∧
    (∀ wf ∈ r.watchFiles, (wf ∉ cur ∨ wf ∈ sub) → wf ∈ (reconcile cur sub r).sub) ∧
    (reconcile cur sub r).added.Nodup ∧
    (∀ p ∈ (reconcile cur sub r).added, p ∉ cur ∧ p ∈ r.watchFiles) := by
  have hadded := fold_reconcileStep_added r.watchFiles (reconcileInit cur sub r)
    (by simp [reconcileInit]) (by simp [reconcileInit])
  have haddedMem :
      ∀ p ∈ (reconcileFold cur sub r).added, p ∉ cur ∧ p ∈ r.watchFiles := by
    intro p hp
    obtain ⟨h1, h2⟩ := hadded.2 p hp
    rw [reconcileInit_added] at h1 h2
    rw [reconcileInit_current] at h1
    constructor
    · rcases h1 with h1 | h1
      · exact absurd h1 (List.not_mem_nil p)
      · exact h1
    · rcases h2 with h2 | h2
      · exact absurd h2 (List.not_mem_nil p)
      · exact h2
  by_cases herr : 0 < r.errors.length
  · rw [reconcile_error cur sub r herr]
    refine ⟨?_, ?_, hadded.1, haddedMem⟩
    · intro wf hwf
      simp only [reconcileFold, fold_reconcileStep_current, reconcileInit_current]
      exact Or.inr hwf
    · intro wf hwf hc
      simp only [reconcileFold, fold_reconcileStep_sub, reconcileInit_sub,
        reconcileInit_current]
      rcases hc with hc | hc
      · exact Or.inr ⟨hwf, hc⟩
      · exact Or.inl hc
  · have hz : r.errors.length = 0 := by omega
    obtain ⟨s₁, hmem, heq⟩ := reconcile_success cur sub r hz
    rw [heq]
    by_cases hlen : s₁.length > 0
    · rw [if_pos hlen]
      refine ⟨?_, ?_, hadded.1, haddedMem⟩
      · intro wf hwf
        simp only [reconcileFold, fold_reconcileStep_current, reconcileInit_current]
        exact Or.inr hwf
      · intro wf hwf hc
        have hns : wf ∉ s₁ := fun hs => ((hmem wf).mp hs).2 hwf
        have hsub : wf ∈ (reconcileFold cur sub r).sub := by
          simp only [reconcileFold, fold_reconcileStep_sub, reconcileInit_sub,
            reconcileInit_current]
          rcases hc with hc | hc
          · exact Or.inr ⟨hwf, hc⟩
          · exact Or.inl hc
        simp only [List.mem_filter]
        refine ⟨hsub, ?_⟩
        simp [List.contains, hns]
    · rw [if_neg hlen]
      refine ⟨?_, ?_, hadded.1, haddedMem⟩
      · intro wf hwf
        simp only [reconcileFold, fold_reconcileStep_current, reconcileInit_current]
        exact Or.inr hwf
      · intro wf hwf hc
        simp only [reconcileFold, fold_reconcileStep_sub, reconcileInit_sub,
          reconcileInit_current]
        rcases hc with hc | hc
        · exact Or.inr ⟨hwf, hc⟩
        · exact Or.inl hc

/-- C10 witness: the amended reconciliation theorem applied to a concrete
state. -/
theorem claim_C10_witness :
    (∀ wf ∈ (ExecutionResult.mk 3 [] [] [] ["a", "b"]).watchFiles,
      wf ∈ (reconcile ["b"] [] (ExecutionResult.mk 3 [] [] [] ["a", "b"])).current) ∧
    (∀ wf ∈ (ExecutionResult.mk 3 [] [] [] ["a", "b"]).watchFiles,
      (wf ∉ ["b"] ∨ wf ∈ ([] : List String)) →
        wf ∈ (reconcile ["b"] [] (ExecutionResult.mk 3 [] [] [] ["a", "b"])).sub) ∧
    (reconcile ["b"] [] (ExecutionResult.mk 3 [] [] [] ["a", "b"])).added.Nodup ∧
    (∀ p ∈ (reconcile ["b"] [] (ExecutionResult.mk 3 [] [] [] ["a", "b"])).added,
      p ∉ ["b"] ∧ p ∈ (ExecutionResult.mk 3 [] [] [] ["a", "b"]).watchFiles) :=
  claim_C10_amended_reconcile ["b"] [] (ExecutionResult.mk 3 [] [] [] ["a", "b"])

/-- C3 counterexample: a session with watch mode off runs one build (exactly
one caller output is yielded) and the trace contains no `dispose` invocation
at all, so its single Execution Result is not disposed exactly once. -/
theorem claim_C3_counterexample :
    yieldCount (runEsBuildBuildAction c3Config
        (BuildStep.ok (ExecutionResult.mk 0 [] [] [] ["a"])) []).events = 1 ∧
    disposedIds (runEsBuildBuildAction c3Config
        (BuildStep.ok (ExecutionResult.mk 0 [] [] [] ["a"])) []).events = [] := by
  decide

theorem disposedIds_append (a b : List Event) :
    disposedIds (a ++ b) = disposedIds a ++ disposedIds b := by
  simp [disposedIds]

theorem disposedIds_adds (l : List String) :
    disposedIds (l.map (fun p => Event.watcherAdd [p])) = [] := by
  induction l with
  | nil => rfl
  | cons a t ih => simp [disposedIds, disposedId]

theorem disposedIds_teardown (i : Nat) :
    disposedIds [Event.watcherClose, Event.dispose i, Event.sassShutdown] = [i] :=
  rfl

theorem disposedIds_iterEvents (r : ExecutionResult) (rOut : ReconcileOut) :
    disposedIds (progressionDisposeEvents r
        ++ rOut.added.map (fun p => Event.watcherAdd [p])
        ++ (if rOut.removed.isEmpty then [] else [Event.watcherRemove rOut.removed]))
      = [r.id] := by
  rw [disposedIds_append, disposedIds_append, disposedIds_adds]
  have h1 : disposedIds (progressionDisposeEvents r) = [r.id] := rfl
  rw [h1]
  cases hc : rOut.removed.isEmpty <;> simp [hc, disposedIds, disposedId]

theorem disposedIds_setupEvents (cfg : Config) (r : ExecutionResult) :
    disposedIds (setupEvents cfg r) = [] := by
  cases hr : cfg.shouldWatchRoot <;> simp [setupEvents, hr, disposedIds, disposedId]

theorem watchLoop_disposes (cfg : Config) (its : List Iteration) :
    ∀ (r : ExecutionResult) (cur sub : List String),
      disposedIds (watchLoop cfg r cur sub its).events
          ++ [(watchLoop cfg r cur sub its).lastResult.id]
        = r.id :: ((watchLoop cfg r cur sub its).snapshots.map (fun s => s.result.id)) := by
  induction its with
  | nil =>
    intro r cur sub
    simp [watchLoop, disposedIds]
  | cons it rest ih =>
    intro r cur sub
    obtain ⟨ab, ch, bld, emt⟩ := it
    cases ab with
    | true => simp [watchLoop, disposedIds]
    | false =>
      cases bld with
      | throws => simp [watchLoop, disposedIds]
      | ok newResult =>
        have hIter := disposedIds_iterEvents r (reconcile (removeAll cur ch.removed) sub newResult)
        cases emt with
        | true =>
          simp only [watchLoop]
          simp only [Iteration.aborted, Bool.false_eq_true, if_false, Iteration.changes,
            Iteration.build, Iteration.emitThrows, eq_self_iff_true, if_true]
          rw [hIter]
          rfl
        | false =>
          have ihh := ih newResult
            (reconcile (removeAll cur ch.removed) sub newResult).current
            (reconcile (removeAll cur ch.removed) sub newResult).sub
          simp only [watchLoop]
          simp only [Iteration.aborted, Bool.false_eq_true, if_false, Iteration.changes,
            Iteration.build, Iteration.emitThrows, eq_self_iff_true, if_true]
          rw [disposedIds_append, disposedIds_append, hIter]
          have h2 : disposedIds [Event.yieldOutput (emitted cfg newResult)] = [] := rfl
          rw [h2]
          simp only [List.append_nil, List.nil_append, List.map_cons, List.cons_append]
          rw [ihh]

theorem watchLoop_lastResult (cfg : Config) (its : List Iteration) :
    ∀ (r : ExecutionResult) (cur sub : List String),
      (watchLoop cfg r cur sub its).lastResult
        = ((watchLoop cfg r cur sub its).snapshots.map (fun s => s.result)).getLastD r := by
  induction its with
  | nil => intro r cur sub; simp [watchLoop]
  | cons it rest ih =>
    intro r cur sub
    obtain ⟨ab, ch, bld, emt⟩ := it
    cases ab with
    | true => simp [watchLoop]
    | false =>
      cases bld with
      | throws => simp [watchLoop]
      | ok newResult =>
        cases emt with
        | true => simp [watchLoop]
        | false =>
          have ihh := ih newResult
            (reconcile (removeAll cur ch.removed) sub newResult).current
            (reconcile (removeAll cur ch.removed) sub newResult).sub
          simp only [watchLoop]
          simp only [Iteration.aborted, Bool.false_eq_true, if_false, Iteration.changes,
            Iteration.build, Iteration.emitThrows, eq_self_iff_true, if_true]
          rw [ihh, List.map_cons, List.getLastD_cons]

/-- C3 (amended): in every watch-mode session whose initial build returns, the
sequence of `dispose()` invocations over the whole trace is exactly the
sequence of produced Execution Results in production order — the initial
result and then each completed rebuild's result — so each produced result is
disposed exactly once: every non-final result when the next build completes,
and the final one at teardown, never while it is still the current result.
Disposal on normal progression is modelled from the spec
(`progressionDisposeEvents`), as `bundler-execution-result.ts` is not among
the sources. -/
theorem claim_C3_amended_watch_dispose (cfg : Config) (r0 : ExecutionResult)
    (iters : List Iteration) (h : cfg.watch = true) :
    disposedIds (runEsBuildBuildAction cfg (BuildStep.ok r0) iters).events
      = r0.id :: ((runEsBuildBuildAction cfg (BuildStep.ok r0) iters).snapshots.map
          (fun s => s.result.id)) := by
  have hld := watchLoop_disposes cfg iters r0 (mkSet r0.watchFiles) (setupSub cfg r0)
  simp only [runEsBuildBuildAction, h, if_true]
  rw [disposedIds_append, disposedIds_append, disposedIds_append, disposedIds_append,
    disposedIds_setupEvents, disposedIds_teardown]
  have hpre : disposedIds
      (if cfg.deleteOutputPath && cfg.writeToFileSystem then [Event.deleteOutput] else [])
        = [] := by
    cases hc : cfg.deleteOutputPath && cfg.writeToFileSystem <;> simp [hc, disposedIds, disposedId]
  rw [hpre]
  have hyield : disposedIds [Event.yieldOutput (emitted cfg r0)] = [] := rfl
  rw [hyield]
  simp only [List.nil_append, List.append_nil]
  exact hld

/-- C3 witness: the amended disposal theorem applied to a concrete two-build
watch session. -/
theorem claim_C3_witness :
    cWatchConfig.watch = true ∧
    disposedIds (runEsBuildBuildAction cWatchConfig
          (BuildStep.ok (ExecutionResult.mk 0 [] [] [] ["a"]))
          [quietIteration (ExecutionResult.mk 1 [] [] [] ["a"])]).events
      = (ExecutionResult.mk 0 [] [] [] ["a"]).id ::
          ((runEsBuildBuildAction cWatchConfig
              (BuildStep.ok (ExecutionResult.mk 0 [] [] [] ["a"]))
              [quietIteration (ExecutionResult.mk 1 [] [] [] ["a"])]).snapshots.map
            (fun s => s.result.id)) :=
  ⟨rfl,
    claim_C3_amended_watch_dispose cWatchConfig (ExecutionResult.mk 0 [] [] [] ["a"])
      [quietIteration (ExecutionResult.mk 1 [] [] [] ["a"])] rfl⟩

/-- C4: in every watch-mode session whose initial build returns, however the
rebuild loop exits — the iteration script ending (watcher closure), the abort
signal, a throwing rebuild, or a throwing materialization — the trace ends
with closing the Watcher, disposing the most recent Execution Result, and
then releasing the pooled Sass worker resources (the teardown runs in the
loop's `finally`, via `Promise.allSettled`, so it is reached on exception
paths as well and both actions settle). -/
theorem claim_C4_teardown_on_every_exit (cfg : Config) (r0 : ExecutionResult)
    (iters : List Iteration) (h : cfg.watch = true) :
    ∃ pre,
      (runEsBuildBuildAction cfg (BuildStep.ok r0) iters).events
        = pre ++ [Event.watcherClose,
            Event.dispose
              ((((runEsBuildBuildAction cfg (BuildStep.ok r0) iters).snapshots.map
                  (fun s => s.result)).getLastD r0).id),
            Event.sassShutdown] := by
  have hlast := watchLoop_lastResult cfg iters r0 (mkSet r0.watchFiles) (setupSub cfg r0)
  refine ⟨(if cfg.deleteOutputPath && cfg.writeToFileSystem then [Event.deleteOutput] else [])
      ++ setupEvents cfg r0 ++ [Event.yieldOutput (emitted cfg r0)]
      ++ (watchLoop cfg r0 (mkSet r0.watchFiles) (setupSub cfg r0) iters).events, ?_⟩
  simp only [runEsBuildBuildAction, h, if_true]
  rw [hlast]

/-- C4 witness: the teardown theorem applied to a concrete session whose only
iteration is an aborted one. -/
theorem claim_C4_witness :
    cWatchConfig.watch = true ∧
    ∃ pre,
      (runEsBuildBuildAction cWatchConfig (BuildStep.ok (ExecutionResult.mk 0 [] [] [] ["a"]))
            [⟨true, ⟨[], [], []⟩, BuildStep.throws, false⟩]).events
        = pre ++ [Event.watcherClose,
            Event.dispose
              ((((runEsBuildBuildAction cWatchConfig
                    (BuildStep.ok (ExecutionResult.mk 0 [] [] [] ["a"]))
                    [⟨true, ⟨[], [], []⟩, BuildStep.throws, false⟩]).snapshots.map
                  (fun s => s.result)).getLastD (ExecutionResult.mk 0 [] [] [] ["a"])).id),
            Event.sassShutdown] :=
  ⟨rfl,
    claim_C4_teardown_on_every_exit cWatchConfig (ExecutionResult.mk 0 [] [] [] ["a"])
      [⟨true, ⟨[], [], []⟩, BuildStep.throws, false⟩] rfl⟩

/-- C5: when watch mode is not requested and the initial build returns, the
invocation yields exactly one caller output (the materialized initial result),
never creates a Watcher, enters no rebuild iteration, and terminates without
an exception; the whole trace is the optional output deletion, the Sass worker
shutdown, and the single yield. -/
theorem claim_C5_no_watch_single_yield (cfg : Config) (r : ExecutionResult)
    (iters : List Iteration) (h : cfg.watch = false) :
    (runEsBuildBuildAction cfg (BuildStep.ok r) iters).events
        = (if cfg.deleteOutputPath && cfg.writeToFileSystem then [Event.deleteOutput] else [])
          ++ [Event.sassShutdown, Event.yieldOutput (emitted cfg r)] ∧
    yieldCount (runEsBuildBuildAction cfg (BuildStep.ok r) iters).events = 1 ∧
    Event.watcherCreated ∉ (runEsBuildBuildAction cfg (BuildStep.ok r) iters).events ∧
    (runEsBuildBuildAction cfg (BuildStep.ok r) iters).snapshots = [] ∧
    (runEsBuildBuildAction cfg (BuildStep.ok r) iters).threw = false := by
  cases hc : cfg.deleteOutputPath && cfg.writeToFileSystem <;>
    simp [runEsBuildBuildAction, h, hc, yieldCount, isYield]

/-- C5 witness: the single-emission theorem applied to a concrete non-watch
invocation. -/
theorem claim_C5_witness :
    c3Config.watch = false ∧
    ((runEsBuildBuildAction c3Config (BuildStep.ok (ExecutionResult.mk 0 [] [] [] ["a"])) []).events
        = (if c3Config.deleteOutputPath && c3Config.writeToFileSystem then [Event.deleteOutput]
            else [])
          ++ [Event.sassShutdown,
              Event.yieldOutput (emitted c3Config (ExecutionResult.mk 0 [] [] [] ["a"]))] ∧
      yieldCount (runEsBuildBuildAction c3Config
          (BuildStep.ok (ExecutionResult.mk 0 [] [] [] ["a"])) []).events = 1 ∧
      Event.watcherCreated ∉ (runEsBuildBuildAction c3Config
          (BuildStep.ok (ExecutionResult.mk 0 [] [] [] ["a"])) []).events ∧
      (runEsBuildBuildAction c3Config
          (BuildStep.ok (ExecutionResult.mk 0 [] [] [] ["a"])) []).snapshots = [] ∧
      (runEsBuildBuildAction c3Config
          (BuildStep.ok (ExecutionResult.mk 0 [] [] [] ["a"])) []).threw = false) :=
  ⟨rfl, claim_C5_no_watch_single_yield c3Config (ExecutionResult.mk 0 [] [] [] ["a"]) [] rfl⟩

/-- C7: in every watch-mode invocation, each fixed manifest/lockfile name
whose joined path exists on disk under the workspace root is among the
manifest paths passed to the Watcher's `add` during setup, regardless of the
backend-reported watch files. -/
theorem claim_C7_manifest_lockfiles_watched (cfg : Config) (r : ExecutionResult)
    (iters : List Iteration) (name : String) (hw : cfg.watch = true)
    (hname : name ∈ packageWatchFiles)
    (hdisk : pathJoin cfg.workspaceRoot name ∈ cfg.filesOnDisk) :
    pathJoin cfg.workspaceRoot name ∈ pkgWatchPaths cfg ∧
    Event.watcherAdd (pkgWatchPaths cfg)
      ∈ (runEsBuildBuildAction cfg (BuildStep.ok r) iters).events := by
  constructor
  · simp only [pkgWatchPaths, List.mem_filter, List.mem_map, decide_eq_true_eq]
    exact ⟨⟨name, hname, rfl⟩, hdisk⟩
  · simp [runEsBuildBuildAction, hw, setupEvents]

/-- C7 witness: the manifest-watch theorem applied to a concrete watch-mode
invocation with `package.json` present on disk. -/
theorem claim_C7_witness :
    (c1Config.watch = true ∧ "package.json" ∈ packageWatchFiles ∧
      pathJoin c1Config.workspaceRoot "package.json" ∈ c1Config.filesOnDisk) ∧
    (pathJoin c1Config.workspaceRoot "package.json" ∈ pkgWatchPaths c1Config ∧
      Event.watcherAdd (pkgWatchPaths c1Config)
        ∈ (runEsBuildBuildAction c1Config (BuildStep.ok c1Initial) []).events) :=
  ⟨⟨rfl, by decide, by decide⟩,
    claim_C7_manifest_lockfiles_watched c1Config c1Initial [] "package.json" rfl
      (by decide) (by decide)⟩

/-- C9: when the initial build invocation throws, the exception propagates to
the caller, no Watcher is ever created, nothing is yielded, the rebuild loop
is never entered (no snapshots), and the pooled Sass worker resources are
released on this path exactly when watch mode was not requested. -/
theorem claim_C9_initial_throw_propagates (cfg : Config) (iters : List Iteration) :
    (runEsBuildBuildAction cfg BuildStep.throws iters).threw = true ∧
    Event.watcherCreated ∉ (runEsBuildBuildAction cfg BuildStep.throws iters).events ∧
    yieldCount (runEsBuildBuildAction cfg BuildStep.throws iters).events = 0 ∧
    (runEsBuildBuildAction cfg BuildStep.throws iters).snapshots = [] ∧
    (Event.sassShutdown ∈ (runEsBuildBuildAction cfg BuildStep.throws iters).events
      ↔ cfg.watch = false) := by
  cases hc : cfg.deleteOutputPath && cfg.writeToFileSystem <;>
    cases hw : cfg.watch <;>
      simp [runEsBuildBuildAction, hc, hw, yieldCount, isYield]

theorem subAfterEvents_pre_setup (c : Bool) (cfg : Config) (r : ExecutionResult) :
    subAfterEvents ((if c then [Event.deleteOutput] else []) ++ setupEvents cfg r)
      = setupSub cfg r := by
  cases c <;> cases hr : cfg.shouldWatchRoot <;>
    simp [subAfterEvents, setupEvents, setupSub, applyEvent, hr, List.foldl_append]

/-- C8: in every watch-mode invocation whose initial build returns, a caller
output is yielded, and before the first yield the full subscription list —
the present manifest/lockfile paths, the project root when root-watching is
configured, and every path of the initial result's watch files — has already
been installed on the Watcher: each such path is in the subscribed set
obtained by replaying the trace prefix that precedes the first yield. -/
theorem claim_C8_installed_before_first_yield (cfg : Config) (r : ExecutionResult)
    (iters : List Iteration) (h : cfg.watch = true) :
    ∃ preE o post,
      (runEsBuildBuildAction cfg (BuildStep.ok r) iters).events
          = preE ++ Event.yieldOutput o :: post ∧
      (∀ e ∈ preE, isYield e = false) ∧
      (∀ p, (p ∈ pkgWatchPaths cfg ∨ (cfg.shouldWatchRoot = true ∧ p = cfg.projectRoot)
          ∨ p ∈ r.watchFiles) → p ∈ subAfterEvents preE) := by
  refine ⟨(if cfg.deleteOutputPath && cfg.writeToFileSystem then [Event.deleteOutput] else [])
      ++ setupEvents cfg r, emitted cfg r,
      (watchLoop cfg r (mkSet r.watchFiles) (setupSub cfg r) iters).events
        ++ [Event.watcherClose,
            Event.dispose
              (watchLoop cfg r (mkSet r.watchFiles) (setupSub cfg r) iters).lastResult.id,
            Event.sassShutdown], ?_, ?_, ?_⟩
  · simp [runEsBuildBuildAction, h, List.append_assoc]
  · intro e he
    rw [List.mem_append] at he
    rcases he with he | he
    · by_cases hc : (cfg.deleteOutputPath && cfg.writeToFileSystem) = true
      · rw [if_pos hc, List.mem_singleton] at he
        subst he
        rfl
      · rw [if_neg hc] at he
        exact absurd he (List.not_mem_nil e)
    · by_cases hr : cfg.shouldWatchRoot = true
      · simp only [setupEvents, hr, if_true, List.mem_append, List.mem_cons,
          List.mem_singleton, List.not_mem_nil, or_false] at he
        rcases he with (rfl | rfl) | rfl | rfl <;> rfl
      · rw [Bool.not_eq_true] at hr
        simp only [setupEvents, hr, Bool.false_eq_true, if_false, List.mem_append,
          List.mem_cons, List.mem_singleton, List.not_mem_nil, or_false] at he
        rcases he with he | he | he <;> (subst he; rfl)
  · intro p hp
    rw [subAfterEvents_pre_setup]
    unfold setupSub
    rw [mem_foldl_sinsert]
    refine Or.inr ?_
    rw [List.mem_append, List.mem_append]
    rcases hp with hp | ⟨hr, rfl⟩ | hp
    · exact Or.inl (Or.inr hp)
    · refine Or.inl (Or.inl ?_)
      rw [if_pos hr]
      exact List.mem_singleton_self _
    · exact Or.inr hp

/-- C8 witness: the installation-order theorem applied to a concrete
watch-mode invocation. -/
theorem claim_C8_witness :
    c1Config.watch = true ∧
    ∃ preE o post,
      (runEsBuildBuildAction c1Config (BuildStep.ok c1Initial) []).events
          = preE ++ Event.yieldOutput o :: post ∧
      (∀ e ∈ preE, isYield e = false) ∧
      (∀ p, (p ∈ pkgWatchPaths c1Config
          ∨ (c1Config.shouldWatchRoot = true ∧ p = c1Config.projectRoot)
          ∨ p ∈ c1Initial.watchFiles) → p ∈ subAfterEvents preE) :=
  ⟨rfl, claim_C8_installed_before_first_yield c1Config c1Initial [] rfl⟩

/-- C6: the output materializer persists, when `writeToFileSystem` is true,
exactly the output files passing the optional filter (all of them when it is
absent) together with the asset files, and returns the plain summary view
(which carries no file contents); when `writeToFileSystem` is false it
performs no filesystem write and returns the in-memory view whose files are
the output files' contents keyed by path. -/
theorem claim_C6_materializer (r : ExecutionResult) (filt : Option (OutputFile → Bool)) :
    ((writeAndEmitOutput true r filt).written
        = some ((match filt with
            | some f => r.outputFiles.filter f
            | none => r.outputFiles), r.assetFiles) ∧
      (writeAndEmitOutput true r filt).returned
        = BuildActionOutput.plain r.errors.isEmpty) ∧
    ((writeAndEmitOutput false r filt).written = none ∧
      (writeAndEmitOutput false r filt).returned
        = BuildActionOutput.withFiles r.errors.isEmpty
            (r.outputFiles.map (fun f => (f.path, f.contents)))) := by
  refine ⟨⟨?_, rfl⟩, rfl, rfl⟩
  cases filt <;> rfl

end AngularBuild
